import Mathlib

/-!
Verification of the experiment-automation orchestrator (run.py and the
execution package) against its natural-language specification.

The Python source is shallowly embedded: YAML/dict data is modelled with
association lists that mirror Python dict semantics (insertion order kept,
assignment overwrites in place), machine integers are Nat/Int, fallible
code returns Except, and filesystem / network effects are passed in as
explicit arguments (e.g. the list of result files found under results/).
-/

namespace Automation

/-! ## Python dict semantics over association lists

A Python dict is modelled as an association list in insertion order (keys
unique whenever the list was produced by dict operations).  `dictInsert` is
`d[k] = v`: it overwrites the value at the key's original position when the
key exists and appends otherwise.  `dictUnion a b` is `{**a, **b}`: start
from `a`, then assign every binding of `b` in order, so on a key present in
both the value coming from `b` wins. -/

def dictGet {α : Type} : List (String × α) → String → Option α
  | [], _ => none
  | p :: d, k => if p.1 = k then some p.2 else dictGet d k

def dictHasKey {α : Type} : List (String × α) → String → Bool
  | [], _ => false
  | p :: d, k => p.1 = k || dictHasKey d k

def dictInsert {α : Type} : List (String × α) → String → α → List (String × α)
  | [], k, v => [(k, v)]
  | p :: d, k, v => if p.1 = k then (k, v) :: d else p :: dictInsert d k v

def dictUnion {α : Type} (a b : List (String × α)) : List (String × α) :=
  b.foldl (fun d p => dictInsert d p.1 p.2) a

theorem dictGet_insert_self {α : Type} (d : List (String × α)) (k : String) (v : α) :
    dictGet (dictInsert d k v) k = some v := by
  induction d with
  | nil => simp [dictInsert, dictGet]
  | cons p d ih =>
    by_cases h : p.1 = k
    · simp [dictInsert, dictGet, h]
    · simp [dictInsert, dictGet, h, ih]

theorem dictGet_insert_ne {α : Type} (d : List (String × α)) (k k' : String) (v : α)
    (h : k' ≠ k) : dictGet (dictInsert d k v) k' = dictGet d k' := by
  have hkk : ¬ k = k' := fun he => h he.symm
  induction d with
  | nil => simp [dictInsert, dictGet, hkk]
  | cons p d ih =>
    by_cases hp : p.1 = k
    · have hp' : ¬ p.1 = k' := by rw [hp]; exact hkk
      simp [dictInsert, dictGet, hp, hp', hkk]
    · simp [dictInsert, dictGet, hp, ih]

theorem dictHasKey_false_of_not_mem {α : Type} (d : List (String × α)) (k : String)
    (h : k ∉ d.map Prod.fst) : dictHasKey d k = false := by
  induction d with
  | nil => rfl
  | cons p d ih =>
    simp only [List.map_cons, List.mem_cons, not_or] at h
    have h1 : ¬ p.1 = k := fun he => h.1 he.symm
    simp [dictHasKey, h1, ih h.2]

theorem dictGet_union_not_mem {α : Type} (a b : List (String × α)) (k : String)
    (h : dictHasKey b k = false) : dictGet (dictUnion a b) k = dictGet a k := by
  induction b generalizing a with
  | nil => rfl
  | cons p b ih =>
    simp only [dictHasKey, Bool.or_eq_false_iff, decide_eq_false_iff_not] at h
    have hstep : dictUnion a (p :: b) = dictUnion (dictInsert a p.1 p.2) b := rfl
    rw [hstep, ih _ h.2, dictGet_insert_ne _ _ _ _ (Ne.symm h.1)]

/-- Looking a key up in `{**a, **b}` returns `b`'s value whenever the key is
bound in `b` (`b`'s bindings win), assuming `b` has unique keys as every
Python dict does. -/
theorem dictGet_union_right {α : Type} (a b : List (String × α)) (k : String) (v : α)
    (hnd : (b.map Prod.fst).Nodup) (h : dictGet b k = some v) :
    dictGet (dictUnion a b) k = some v := by
  induction b generalizing a with
  | nil => simp [dictGet] at h
  | cons p b ih =>
    simp only [List.map_cons, List.nodup_cons] at hnd
    have hstep : dictUnion a (p :: b) = dictUnion (dictInsert a p.1 p.2) b := rfl
    by_cases hp : p.1 = k
    · simp only [dictGet, hp, if_true] at h
      have hbk : dictHasKey b k = false :=
        dictHasKey_false_of_not_mem _ _ (hp ▸ hnd.1)
      rw [hstep, dictGet_union_not_mem _ _ _ hbk, ← hp, dictGet_insert_self]
      exact h
    · simp only [dictGet, hp, if_false] at h
      rw [hstep, ih _ hnd.2 h]

/-! ## Data model (run.py / execution/test.py)

Test sets are YAML dicts; we embed them as a structure with the keys the
code reads.  Absent keys are modelled by the defaults the Python `.get`
calls supply (`replicas` 1, `completed` 0, `options` `{}`), by `Option`
where the code distinguishes absence (`profile`, `matrix`), and an absent
or empty (falsy) `id` is modelled as the empty string.  Option values are
the flat scalars the configs use. -/

inductive Value where
  | vStr (s : String)
  | vInt (n : Int)
  | vBool (b : Bool)
  deriving DecidableEq, Repr

/-- A per-test option mapping (a Python dict). -/
abbrev Options := List (String × Value)

/-- One entry of a matrix dimension's `values` list: an identifier fragment
(falsy when empty) plus the partial overrides that `always_merger.merge`
folds into a copy of the test set (scalar keys override, the `options` dict
merges key-wise with the entry's values winning). -/
structure MatrixValue where
  id : String
  options : Options
  replicas : Option Nat
  completed : Option Nat
  profile : Option String
  experiment : Option String
  deriving DecidableEq, Repr

/-- A matrix dimension: `name` (default "unknown" already applied) and its
`values` list (default `[]`). -/
structure Dimension where
  name : String
  values : List MatrixValue
  deriving DecidableEq, Repr

/-- A declarative test set as read from the config YAML. -/
structure TestSet where
  id : String
  experiment : String
  replicas : Nat
  completed : Nat
  profile : Option String
  options : Options
  matrix : Option (List Dimension)
  matrix_ids : List (String × String)
  deriving DecidableEq, Repr

/-- One concrete runnable unit (execution/test.py, class TestReplica). -/
structure TestReplica where
  test_id : String
  options : Options
  experiment : String
  profile : Option String
  matrix_ids : List (String × String)
  deriving DecidableEq, Repr

/-! ## run.py: flatten_globals -/

/-- run.py, `flatten_globals`: for each test set build
`options = {**test_set.get("options", {}), **global_options}` and store it
back; the dict-unpacking order makes the bindings of `global_options`
overwrite the test set's own options on common keys. -/
def flatten_globals (tests : List TestSet) (global_options : Options) :
    List TestSet :=
  tests.map (fun test_set =>
    { test_set with options := dictUnion test_set.options global_options })

/-! ## run.py: flatten_matrices -/

/-- The merge `always_merger.merge(new_test, partial_config)` restricted to the keys
a matrix value entry can carry: scalar keys present in the entry override
the test set's, and the entry's `options` dict is merged into the test's
with the entry's values winning on conflicts. -/
def mergeMatrixValue (t : TestSet) (v : MatrixValue) : TestSet :=
  { t with
    options := dictUnion t.options v.options
    replicas := v.replicas.getD t.replicas
    completed := v.completed.getD t.completed
    profile := match v.profile with | some p => some p | none => t.profile
    experiment := v.experiment.getD t.experiment }

/-- The body of the `for test in intermediate` loop for one matrix value
entry: build the expanded test with id `"{test_id}-{value_id}"` and record
`{dimension_name: value_id}` in its matrix-choice map. -/
def expandedTest (name : String) (t : TestSet) (v : MatrixValue) : TestSet :=
  let merged := mergeMatrixValue t v
  { merged with
    id := t.id ++ "-" ++ v.id
    matrix_ids := dictInsert t.matrix_ids name v.id }

/-- run.py, flatten_matrices inner loop `for test in intermediate`: a falsy
test id breaks out of the loop, a falsy value id skips the test, otherwise
the expanded test is appended. -/
def expandForValue (name : String) (v : MatrixValue) :
    List TestSet → List TestSet
  | [] => []
  | t :: rest =>
    if t.id = "" then []
    else if v.id = "" then expandForValue name v rest
    else expandedTest name t v :: expandForValue name v rest

/-- run.py, flatten_matrices: one dimension's expansion step over the
current working set (`for partial_config in values: for test in
intermediate: ...`); a dimension with an empty `values` list is skipped. -/
def expandDimension (intermediate : List TestSet) (dim : Dimension) :
    List TestSet :=
  if dim.values = [] then intermediate
  else dim.values.foldl
    (fun new_intermediate v => new_intermediate ++ expandForValue dim.name v intermediate)
    []

/-- run.py, `flatten_matrices`: test sets without a `matrix` key pass
through; the rest get the incremental cartesian expansion starting from the
singleton working set. -/
def flatten_matrices (tests : List TestSet) : List TestSet :=
  tests.foldl
    (fun flattened test_set =>
      match test_set.matrix with
      | some dimensions => flattened ++ dimensions.foldl expandDimension [test_set]
      | none => flattened ++ [test_set])
    []

/-! ## Decimal rendering used by `str(...)` and `"{:0Nd}".format(...)` -/

/-- Big-endian decimal digits of a positive `n`, structurally recursive in
the fuel so that concrete instances evaluate inside the kernel. -/
def decDigitsAux : Nat → Nat → List Nat
  | _, 0 => []
  | 0, _ + 1 => []
  | fuel + 1, n + 1 => decDigitsAux fuel ((n + 1) / 10) ++ [(n + 1) % 10]

/-- Big-endian decimal digits of `n`, as Python's `str` writes them
(`str(0) = "0"`). -/
def decDigits (n : Nat) : List Nat :=
  if n = 0 then [0] else decDigitsAux n n

theorem decDigitsAux_eq (fuel n : Nat) (h : n ≤ fuel) :
    decDigitsAux fuel n = (Nat.digits 10 n).reverse := by
  induction fuel generalizing n with
  | zero =>
    interval_cases n
    simp [decDigitsAux]
  | succ fuel ih =>
    match n with
    | 0 => simp [decDigitsAux]
    | n + 1 =>
      have hdiv : (n + 1) / 10 ≤ fuel := by
        have := Nat.div_lt_self (Nat.succ_pos n) (by norm_num : 1 < 10)
        omega
      rw [decDigitsAux, ih _ hdiv,
        Nat.digits_def' (by norm_num : 1 < 10) (Nat.succ_pos n)]
      simp [List.reverse_cons]

theorem decDigits_eq (n : Nat) :
    decDigits n = if n = 0 then [0] else (Nat.digits 10 n).reverse := by
  unfold decDigits
  by_cases h : n = 0
  · simp [h]
  · simp [h, decDigitsAux_eq n n le_rfl]

def digitChar (d : Nat) : Char := Char.ofNat (48 + d)

/-- The characters of `str(n)` for a natural number `n`. -/
def decChars (n : Nat) : List Char := (decDigits n).map digitChar

/-- Python `str(n)` for a natural number `n`. -/
def decStr (n : Nat) : String := String.mk (decChars n)

/-- Python `len(str(n))`. -/
def decLen (n : Nat) : Nat := (decDigits n).length

/-- The characters of `"{:0Wd}".format(n)`: `str(n)` zero-padded on the
left to width `W` (numbers with at least `W` digits are unchanged). -/
def padChars (w n : Nat) : List Char :=
  List.replicate (w - decLen n) '0' ++ decChars n

/-- run.py, flatten_replicas: `test_id_fmt.format(test_id, j)`, i.e.
`f"{test_id}-{j:0{id_length}d}"`. -/
def mkRunId (test_id : String) (w j : Nat) : String :=
  test_id ++ "-" ++ String.mk (padChars w j)

/-- Reading a digit string back (how `int(...)` evaluates it); used to show
the paddings are injective. -/
def parseNatChars (cs : List Char) : Nat :=
  cs.foldl (fun a c => a * 10 + (c.toNat - 48)) 0

theorem foldl_digit_step (l : List Nat) (acc : Nat) :
    l.reverse.foldl (fun a d => a * 10 + d) acc
      = acc * 10 ^ l.length + Nat.ofDigits 10 l := by
  induction l generalizing acc with
  | nil => simp
  | cons d l ih =>
    simp only [List.reverse_cons, List.foldl_append, List.foldl_cons, List.foldl_nil,
      List.length_cons, Nat.ofDigits_cons, ih]
    ring

theorem digitChar_toNat (d : Nat) (hd : d < 10) : (digitChar d).toNat = 48 + d := by
  interval_cases d <;> decide

theorem decDigits_lt (n : Nat) : ∀ d ∈ decDigits n, d < 10 := by
  intro d hd
  rw [decDigits_eq] at hd
  by_cases h : n = 0
  · simp [h] at hd; omega
  · simp only [h, if_false, List.mem_reverse] at hd
    exact Nat.digits_lt_base (by norm_num) hd

theorem parseNatChars_decChars (n : Nat) : parseNatChars (decChars n) = n := by
  unfold parseNatChars decChars
  have hmap : ∀ l : List Nat, (∀ d ∈ l, d < 10) →
      (l.map digitChar).foldl (fun a c => a * 10 + (c.toNat - 48)) 0
        = l.foldl (fun a d => a * 10 + d) 0 := by
    intro l hl
    have : ∀ acc, (l.map digitChar).foldl (fun a c => a * 10 + (c.toNat - 48)) acc
        = l.foldl (fun a d => a * 10 + d) acc := by
      induction l with
      | nil => intro acc; rfl
      | cons d l ih =>
        intro acc
        have hd : d < 10 := hl d (List.mem_cons_self d l)
        simp only [List.map_cons, List.foldl_cons, digitChar_toNat d hd,
          Nat.add_sub_cancel_left]
        exact ih (fun x hx => hl x (List.mem_cons_of_mem d hx)) _
    exact this 0
  rw [hmap _ (decDigits_lt n), decDigits_eq]
  by_cases h : n = 0
  · simp [h]
  · simp only [h, if_false]
    rw [foldl_digit_step]
    simpa using Nat.ofDigits_digits 10 n

theorem parseNatChars_padChars (w n : Nat) : parseNatChars (padChars w n) = n := by
  unfold padChars parseNatChars
  rw [List.foldl_append]
  have hz : ∀ z, (List.replicate z '0').foldl (fun a c => a * 10 + (c.toNat - 48)) 0 = 0 := by
    intro z
    induction z with
    | zero => rfl
    | succ z ih => simpa [List.replicate_succ] using ih
  rw [hz]
  exact parseNatChars_decChars n

theorem padChars_injective (w n m : Nat) (h : padChars w n = padChars w m) : n = m := by
  have := parseNatChars_padChars w n
  rw [h, parseNatChars_padChars] at this
  exact this.symm

theorem dash_not_mem_padChars (w n : Nat) : '-' ∉ padChars w n := by
  intro hmem
  unfold padChars at hmem
  rcases List.mem_append.mp hmem with h | h
  · have := List.eq_of_mem_replicate h
    simp at this
  · unfold decChars at h
    obtain ⟨d, hd, hch⟩ := List.mem_map.mp h
    have hlt := decDigits_lt n d hd
    interval_cases d <;> simp_all [digitChar]

/-! ## run.py: get_completed_tests (the CompletionIndex)

The filesystem walk of `find_files` is embedded by passing the list of file
paths found under the results directory.  `RESULT_TAR_REGEX` applied by
`re.search` to a basename is `(.+)-(\d+)\.tar\.gz$` anchored at the start:
with the greedy `(.+)` the match splits the stem at the last dash that is
followed by a nonempty all-digit run, the base having to be nonempty. -/

def isDigitChar (c : Char) : Bool := '0' ≤ c && c ≤ '9'

/-- Python `os.path.basename`: everything after the last slash. -/
def basename (p : String) : String :=
  String.mk ((p.data.reverse.takeWhile (fun c => c ≠ '/')).reverse)

/-- The stem of a result file name (the part before `.tar.gz`) split at the
last dash followed by a nonempty digit run: with the greedy `(.+)` of
`RESULT_TAR_REGEX`, group(1) is everything before that dash and group(2)
the digit run, both nonempty. -/
def parseStem (stem : List Char) : Option (String × Nat) :=
  match stem.reverse.dropWhile isDigitChar with
  | c :: base =>
    if c = '-' ∧ stem.reverse.takeWhile isDigitChar ≠ [] ∧ base ≠ [] then
      some (String.mk base.reverse,
            parseNatChars (stem.reverse.takeWhile isDigitChar).reverse)
    else none
  | [] => none

/-- Match `RESULT_TAR_REGEX` against a basename, returning
`(test_id, int(replica))` on success. -/
def parseResultName (name : String) : Option (String × Nat) :=
  if ".tar.gz".data.isSuffixOf name.data then
    parseStem (name.data.take (name.data.length - 7))
  else none

/-- Membership in one of the per-test completed-replica sets
(`test_id in completed_tests and j in completed_tests[test_id]`). -/
def completedHas (d : List (String × List Nat)) (test_id : String) (j : Nat) : Bool :=
  match dictGet d test_id with
  | some s => decide (j ∈ s)
  | none => false

/-- The update `completed_tests[test_id].add(test_replica)` (creating the set first
when absent); Python sets are modelled as duplicate-free lists in insertion
order. -/
def addCompleted (d : List (String × List Nat)) (test_id : String) (j : Nat) :
    List (String × List Nat) :=
  match dictGet d test_id with
  | some s => dictInsert d test_id (if j ∈ s then s else s ++ [j])
  | none => dictInsert d test_id [j]

/-- The body of the `for f in files` loop of get_completed_tests: a file
whose basename matches the regex adds its replica index to the base id's
set, any other file is ignored. -/
def completedStep (completed_tests : List (String × List Nat)) (f : String) :
    List (String × List Nat) :=
  match parseResultName (basename f) with
  | some (test_id, j) => addCompleted completed_tests test_id j
  | none => completed_tests

/-- run.py, `get_completed_tests`: scan the result files (those ending in
`.tar.gz`, as `find_files` returns), parse each basename and collect the
replica indices per test id. -/
def get_completed_tests (files : List String) : List (String × List Nat) :=
  (files.filter (fun f => ".tar.gz".data.isSuffixOf f.data)).foldl
    completedStep []

/-! ## run.py: flatten_replicas -/

/-- Python's `max` over a nonempty list (the generator in flatten_replicas);
0 for the empty list, on which the Python code would instead raise. -/
def listMax (l : List Nat) : Nat := l.foldl max 0

/-- run.py, flatten_replicas: `id_length = max(max(replicas_len), 2)` where
`replicas_len` is `len(str(test_set.get("replicas", 1)))` for each test. -/
def idLength (tests : List TestSet) : Nat :=
  max (listMax (tests.map (fun test_set => decLen test_set.replicas))) 2

/-- The loop body of flatten_replicas for one test set: iterate `i` over
`range(replicas - completed)`, set `j = i + completed`, skip `j` when the
CompletionIndex contains it for this id, else emit the TestReplica with the
padded run id. -/
def replicasFor (w : Nat) (completed_tests : List (String × List Nat))
    (test_set : TestSet) : List TestReplica :=
  (List.range (test_set.replicas - test_set.completed)).filterMap (fun i =>
    let j := i + test_set.completed
    if completedHas completed_tests test_set.id j then none
    else some { test_id := mkRunId test_set.id w j
                options := test_set.options
                experiment := test_set.experiment
                profile := test_set.profile
                matrix_ids := test_set.matrix_ids })

/-- run.py, `flatten_replicas`: compute the shared pad width, then flatten
every test set's remaining replicas in order.  The CompletionIndex is the
one built by `get_completed_tests` from the results directory; it is passed
in explicitly here. -/
def flatten_replicas (tests : List TestSet)
    (completed_tests : List (String × List Nat)) : List TestReplica :=
  tests.foldl
    (fun flattened test_set =>
      flattened ++ replicasFor (idLength tests) completed_tests test_set)
    []

/-- run.py, `flatten_tests`: the full expansion pipeline. -/
def flatten_tests (tests : List TestSet) (global_options : Options)
    (result_files : List String) : List TestReplica :=
  flatten_replicas (flatten_matrices (flatten_globals tests global_options))
    (get_completed_tests result_files)

/-- The result-artifact name `f"{test_id}-{j}.tar.gz"` the run writes, as
scanned back by the CompletionIndex. -/
def resultFileName (test_id : String) (j : Nat) : String :=
  test_id ++ "-" ++ decStr j ++ ".tar.gz"

/-! ## run.py: assign_hosts

`HOST_CONFIG_REGEX` is `(?m)^((?:readonly )?[A-Z_]+_HOSTS?)="?.*"?$`.  With
the multiline anchors and `.` not crossing newlines, `re.finditer` yields
one match per line of the shape `(readonly )?NAME=rest`, where `NAME` is a
nonempty run of `[A-Z_]` reaching exactly to the `=` and decomposing as a
nonempty `[A-Z_]+` body followed by `_HOST` or `_HOSTS`; group(1) includes
the `readonly ` qualifier when present.  `rest` is arbitrary since both
quotes are optional. -/

def isUpperUnder (c : Char) : Bool := ('A' ≤ c && c ≤ 'Z') || c = '_'

/-- Whether `NAME` matches `[A-Z_]+_HOSTS?`: all chars in `[A-Z_]` (guaranteed by
the caller's takeWhile) with suffix `_HOST` or `_HOSTS` preceded by at
least one body character. -/
def hasHostSuffix (name : List Char) : Bool :=
  ("_HOSTS".data.isSuffixOf name && name.length ≥ 7)
    || ("_HOST".data.isSuffixOf name && name.length ≥ 6)

/-- Match one line against `HOST_CONFIG_REGEX`, returning group(1). -/
def hostFieldOfLine (cs : List Char) : Option String :=
  let hasRo := "readonly ".data.isPrefixOf cs
  let qual : List Char := if hasRo then "readonly ".data else []
  let rest0 := if hasRo then cs.drop 9 else cs
  let name := rest0.takeWhile isUpperUnder
  let rest := rest0.dropWhile isUpperUnder
  if name ≠ [] && rest.headD ' ' = '=' && hasHostSuffix name then
    some (String.mk (qual ++ name))
  else none

/-- Split a character stream at the newlines the `(?m)` anchors match
around. -/
def splitLinesAux : List Char → List Char → List (List Char)
  | [], acc => [acc.reverse]
  | c :: rest, acc =>
    if c = '\n' then acc.reverse :: splitLinesAux rest []
    else splitLinesAux rest (c :: acc)

def splitLines (cs : List Char) : List (List Char) := splitLinesAux cs []

/-- The matches `re.finditer(HOST_CONFIG_REGEX, config_sh)` finds: group(1) of every matching
line, in document order (duplicates are kept, as in the source). -/
def hostFields (config_sh : String) : List String :=
  (splitLines config_sh.data).filterMap hostFieldOfLine

/-- Python runtime errors assign_hosts can raise. -/
inductive PyErr where
  | zeroDivision
  | indexError
  deriving DecidableEq, Repr

/-- The pop `host_pool.pop(0)` repeated `n` times (IndexError on an exhausted
pool). -/
def popExact : Nat → List String → Except PyErr (List String × List String)
  | 0, pool => .ok ([], pool)
  | _ + 1, [] => .error .indexError
  | n + 1, h :: pool =>
    match popExact n pool with
    | .ok (chunk, pool') => .ok (h :: chunk, pool')
    | .error e => .error e

/-- The `for i, host_field in enumerate(host_fields)` loop: pop `hosts_per`
hosts for every field plus one extra while `i < hosts_extra`, storing the
chunk under the field name with dict-assignment semantics. -/
def assignLoop (hosts_per hosts_extra : Nat) :
    Nat → List String → List (String × List String) → List String →
    Except PyErr (List (String × List String))
  | _, _, assignments, [] => .ok assignments
  | i, pool, assignments, field :: fields =>
    match popExact hosts_per pool with
    | .error e => .error e
    | .ok (chunk, pool') =>
      if i < hosts_extra then
        match popExact 1 pool' with
        | .error e => .error e
        | .ok (extra, pool'') =>
          assignLoop hosts_per hosts_extra (i + 1) pool''
            (dictInsert assignments field (chunk ++ extra)) fields
      else
        assignLoop hosts_per hosts_extra (i + 1) pool'
          (dictInsert assignments field chunk) fields

/-- run.py, `assign_hosts`: scan the rendered config for host fields,
divide the hosts evenly (ZeroDivisionError when no field matched), then
space-join each field's chunk. -/
def assign_hosts (config_sh : String) (hosts : List String) :
    Except PyErr (List (String × String)) :=
  let host_fields := hostFields config_sh
  let num_hosts := hosts.length
  let num_fields := host_fields.length
  if num_fields = 0 then .error .zeroDivision
  else
    match assignLoop (num_hosts / num_fields) (num_hosts % num_fields)
        0 hosts [] host_fields with
    | .error e => .error e
    | .ok assignments =>
      .ok (assignments.map (fun p => (p.1, String.intercalate " " p.2)))

/-! Specification-side description of the partition (from the spec's words,
for comparison with `assign_hosts`): field `i` of `F` receives
`H / F + (1 if i < H % F else 0)` hosts, chunks cut from the front. -/

def chunkSizes (H F : Nat) : List Nat :=
  (List.range F).map (fun i => H / F + if i < H % F then 1 else 0)

def splitChunks : List Nat → List String → List (List String)
  | [], _ => []
  | n :: ns, hosts => hosts.take n :: splitChunks ns (hosts.drop n)

/-! ## execution/control.py

`stopping` is the process-wide stop flag and `term_cond` a condition
variable.  `wait(delay)` blocks on `term_cond.wait(timeout=delay)` — it
unblocks either because the timeout elapsed or because `stop()` called
`notify_all()` — and then returns the current value of `stopping`.  The
wake reason is made explicit so that "woken by the broadcast before the
delay elapsed" is expressible. -/

structure ControlState where
  stopping : Bool
  deriving DecidableEq, Repr

/-- Why a blocked `term_cond.wait(timeout=delay)` call returned. -/
inductive WakeReason where
  | notified
  | timedOut
  deriving DecidableEq, Repr

/-- control.py, `wait`: whatever woke the condition wait, the function
returns the value of the `stopping` flag at that moment. -/
def waitReturn (st : ControlState) (_reason : WakeReason) : Bool :=
  st.stopping

/-! ## execution/retry.py -/

/-- The mutable fields of a `retry` cursor that steer its control flow:
`_index` starts at -1 and is incremented before every check, and the
pending-failure slot is set by `failed(...)` and cleared on every non-first
advance.  (Logging, the task description and the computed backoff delay
have no influence on which outcome `__next__` takes.) -/
structure RetryState where
  index : Int
  retry_count : Int
  failure_msg : Option String
  cause_is_exception : Bool
  deriving DecidableEq, Repr

/-- The state of `retry(retry_count)` before the first advance. -/
def retryInit (retry_count : Int) : RetryState :=
  { index := -1, retry_count := retry_count, failure_msg := none,
    cause_is_exception := false }

/-- The call `current.failed(message)` with a plain (non-exception) message: store
it in the pending-failure slot. -/
def recordFailed (s : RetryState) (message : String) : RetryState :=
  { s with failure_msg := some message, cause_is_exception := false }

/-- The three ways `retry.__next__` can leave: yield the cursor again as
the next attempt handle, raise `OperationFailed`, or raise `ExitEarly`. -/
inductive StepResult where
  | handle (s : RetryState)
  | opFailed
  | exitEarly
  deriving DecidableEq, Repr

/-- retry.py, `__next__`: increment the index; past the retry budget raise
`OperationFailed`; otherwise, on every non-first advance, report the stored
failure, clear it, and block in `wait(retry_delay)` — `stopRequested` is
that wait's return value — raising `ExitEarly` when it reports the stop. -/
def retryNext (s : RetryState) (stopRequested : Bool) : StepResult :=
  if s.index + 1 ≥ s.retry_count then .opFailed
  else if s.index + 1 ≠ 0 then
    if stopRequested then .exitEarly
    else .handle { index := s.index + 1, retry_count := s.retry_count,
                   failure_msg := none, cause_is_exception := false }
  else .handle { s with index := s.index + 1 }

/-- The trajectory of a retry cursor whose attempted action calls
`failed(msg)` on every handle it receives, with no stop requested:
`failingTrajectory msg N k` is the outcome of advance `k + 1`
(later advances absorb a terminal outcome). -/
def failingTrajectory (msg : String) (retry_count : Int) : Nat → StepResult
  | 0 => retryNext (retryInit retry_count) false
  | k + 1 =>
    match failingTrajectory msg retry_count k with
    | .handle s => retryNext (recordFailed s msg) false
    | r => r

/-! ## execution/cloudlab.py: the provision status poll -/

/-- A backtracking matcher for the fixed patterns the driver searches for:
a pattern is a sequence of literals and nonempty character runs. -/
inductive Pat where
  | lit (cs : List Char)
  | many1 (p : Char → Bool)

/-- Backtracking match of a pattern sequence against a prefix of the
input: a run `many1 p` consumes one `p`-character and then either ends or
keeps consuming. -/
def matchPats : List Pat → List Char → Bool
  | [], _ => true
  | .lit l :: ps, s => l.isPrefixOf s && matchPats ps (s.drop l.length)
  | .many1 _ :: _, [] => false
  | .many1 p :: ps, c :: rest =>
    p c && (matchPats ps rest || matchPats (.many1 p :: ps) rest)
termination_by ps s => (ps.length, s.length)

/-- Search in the style of `re.search`: the pattern may start at any position. -/
def searchPats (ps : List Pat) : List Char → Bool
  | [] => matchPats ps []
  | c :: rest => matchPats ps (c :: rest) || searchPats ps rest

/-- Python's `needle in haystack` on strings. -/
def containsSub (haystack needle : String) : Bool :=
  searchPats [.lit needle.data] haystack.data

def notNewline (c : Char) : Bool := c ≠ '\n'

/-- The pattern `NOT_ENOUGH_REGEX`:
`[0-9]+ nodes of type .+ requested, but only [0-9]+ available nodes of type .+ found`. -/
def notEnoughNodes (s : String) : Bool :=
  searchPats
    [.many1 isDigitChar, .lit " nodes of type ".data, .many1 notNewline,
     .lit " requested, but only ".data, .many1 isDigitChar,
     .lit " available nodes of type ".data, .many1 notNewline,
     .lit " found".data]
    s.data

/-- cloudlab.py, provision: the failure-classification chain run on the
extracted Cloudlab error text when an unrecognized status is seen. -/
def classifyProvisionError (cloudlab_error : String) : String :=
  if containsSub cloudlab_error "Resource reservation violation" then
    "resource reservation violation"
  else if notEnoughNodes cloudlab_error then
    "insufficient nodes available"
  else
    "error during provisioning"

/-- What one status observation inside provision's polling loop does. -/
inductive ProvisionPoll where
  /-- Case `status == "ready"`: leave the loop successfully. -/
  | ready
  /-- Cases `created` / `provisioning` / `booting`: keep waiting. -/
  | keepWaiting
  /-- Leave the loop with this attempt failed; `didTerminate` records
  whether `safe_terminate` was invoked before `current.failed(msg)`. -/
  | failedAttempt (didTerminate : Bool) (msg : String)
  deriving DecidableEq, Repr

/-- cloudlab.py, provision, the `while status != "ready"` poll body once a
non-ready status has been read after the 4-second wait timed out:
`terminating` fails the attempt at once with no terminate call, the three
in-progress statuses keep waiting, `ready` succeeds, anything else runs
`safe_terminate` and fails the attempt with the classified error. -/
def provisionStatusCheck (status : String) (cloudlab_error : String) :
    ProvisionPoll :=
  if status = "terminating" then
    .failedAttempt false "experiment is marked as terminating"
  else if status = "ready" then .ready
  else if status = "created" ∨ status = "provisioning" ∨ status = "booting" then
    .keepWaiting
  else
    .failedAttempt true (classifyProvisionError cloudlab_error)

/-! ## execution/test.py: teardown

The exceptions this code base raises all derive from `Exception`
(`OperationFailed`, `ExitEarly` from execution/exceptions.py, and anything
else a driver call raises), so the `except OperationFailed` /
`except Exception` pair in teardown catches every failure of the guarded
terminate call.  The remote-call outcomes are passed in explicitly. -/

inductive Exc where
  | operationFailed
  | exitEarly
  | otherException
  deriving DecidableEq, Repr

structure TeardownEnv where
  /-- Outcome of the results-archive transfer (5-attempt retry). -/
  transfer : Except Exc Unit
  /-- The global `stopping` flag as read before acquiring the lock. -/
  stopping : Bool
  /-- Outcome of `self._cloudlab_driver.terminate(self._experiment)`. -/
  terminate : Except Exc Unit
  /-- Whether the final cooldown `wait(300)` reports a stop request. -/
  waitStops : Bool

/-- What teardown did on the paths that return normally. -/
structure TeardownLog where
  terminateAttempted : Bool
  /-- The error-log line of the handler that swallowed the terminate
  failure, if any. -/
  terminateErrorLogged : Option String
  cooldownReached : Bool
  deriving DecidableEq, Repr

/-- The `try/except OperationFailed/except Exception` around the guarded
terminate call: every failure is turned into a log line, none re-raised. -/
def guardedTerminate (r : Except Exc Unit) : Option String :=
  match r with
  | .ok _ => none
  | .error .operationFailed => some "Could not terminate experiment on cloudlab:"
  | .error _ =>
    some "Encountered error while terminating experiment on cloudlab driver:"

/-- test.py, `TestExecutionThread.teardown`: transfer the results archive
(failure propagates), return early when stopping, run the guard-protected
terminate with all failures swallowed and logged, then sleep the 5-minute
cooldown, raising `ExitEarly` when that wait observes the stop. -/
def teardown (env : TeardownEnv) : Except Exc TeardownLog :=
  match env.transfer with
  | .error e => .error e
  | .ok _ =>
    if env.stopping then
      .ok { terminateAttempted := false, terminateErrorLogged := none,
            cooldownReached := false }
    else
      let logged := guardedTerminate env.terminate
      if env.waitStops then .error .exitEarly
      else
        .ok { terminateAttempted := true, terminateErrorLogged := logged,
              cooldownReached := true }

/-! ## Shared helper lemmas -/

theorem foldl_append_eq_flatMap {α β : Type} (f : α → List β) (l : List α)
    (acc : List β) :
    l.foldl (fun a x => a ++ f x) acc = acc ++ l.flatMap f := by
  induction l generalizing acc with
  | nil => simp
  | cons x l ih => simp [ih, List.flatMap_cons]

/-- flatten_replicas is the concatenation, in order, of each test set's
replica list (all using the shared pad width). -/
theorem flatten_replicas_eq_flatMap (tests : List TestSet)
    (completed_tests : List (String × List Nat)) :
    flatten_replicas tests completed_tests
      = tests.flatMap (fun test_set =>
          replicasFor (idLength tests) completed_tests test_set) := by
  unfold flatten_replicas
  rw [foldl_append_eq_flatMap]
  rfl

/-- The joint behavior of a retry cursor that is always told `failed(msg)`:
advance `k + 1` yields the handle with index `k` while `k` is below the
budget, and `OperationFailed` from then on. -/
theorem failingTrajectory_spec (msg : String) (N : Int) (hN : 1 ≤ N) (k : Nat) :
    ((k : Int) < N → failingTrajectory msg N k
        = .handle { index := (k : Int), retry_count := N, failure_msg := none,
                    cause_is_exception := false })
    ∧ (N ≤ (k : Int) → failingTrajectory msg N k = .opFailed) := by
  induction k with
  | zero =>
    refine ⟨fun _ => ?_, fun h => absurd h (by push_cast; omega)⟩
    show retryNext (retryInit N) false = _
    unfold retryNext retryInit
    rw [if_neg (by simp; omega), if_neg (by simp)]
    norm_num
  | succ k ih =>
    have hstep : failingTrajectory msg N (k + 1)
        = match failingTrajectory msg N k with
          | .handle s => retryNext (recordFailed s msg) false
          | r => r := rfl
    constructor
    · intro hlt
      have hk : (k : Int) < N := by push_cast at hlt ⊢; omega
      have hlt' : (k : Int) + 1 < N := by push_cast at hlt; omega
      rw [hstep, ih.1 hk]
      unfold retryNext recordFailed
      dsimp only
      rw [if_neg (by omega), if_pos (by omega), if_neg (by simp)]
      push_cast
      rfl
    · intro hge
      by_cases hk : N ≤ (k : Int)
      · rw [hstep, ih.2 hk]
      · have hk' : (k : Int) < N := by omega
        have hge' : (k : Int) + 1 ≥ N := by push_cast at hge; omega
        rw [hstep, ih.1 hk']
        unfold retryNext recordFailed
        dsimp only
        rw [if_pos hge']

/-! ## Claim C1: global-merge precedence -/

/-- C1, counterexample: the claim predicts that in the global-merge step a
key present in both mappings keeps the test set's own value.  For the test
set with `options = {"RETRIES": 1}` and global options `{"RETRIES": 2}`,
`flatten_globals` instead yields 2 — the global value — so the claim as
stated is false. -/
theorem C1_counterexample :
    (flatten_globals
        [{ id := "a", experiment := "e", replicas := 1, completed := 0,
           profile := none, options := [("RETRIES", Value.vInt 1)],
           matrix := none, matrix_ids := [] }]
        [("RETRIES", Value.vInt 2)]).map (fun t => dictGet t.options "RETRIES")
      ≠ [some (Value.vInt 1)]
    ∧ (flatten_globals
        [{ id := "a", experiment := "e", replicas := 1, completed := 0,
           profile := none, options := [("RETRIES", Value.vInt 1)],
           matrix := none, matrix_ids := [] }]
        [("RETRIES", Value.vInt 2)]).map (fun t => dictGet t.options "RETRIES")
      = [some (Value.vInt 2)] := by
  constructor
  · decide
  · rfl

/-- C1 (amended): in the global-merge step, for every key present in both
the global options and a test set's own options, the GLOBAL value wins
(merge precedence test-set-options < global-options, shallow override),
because `{**test_set_options, **global_options}` lets the later unpacking
overwrite. -/
theorem C1_global_options_win (tests : List TestSet) (g : Options)
    (hg : (g.map Prod.fst).Nodup) (i : Nat)
    (hi : i < (flatten_globals tests g).length) (hi' : i < tests.length)
    (k : String) (vg vt : Value)
    (hgk : dictGet g k = some vg)
    (htk : dictGet (tests.get ⟨i, hi'⟩).options k = some vt) :
    dictGet ((flatten_globals tests g).get ⟨i, hi⟩).options k = some vg := by
  have hget : (flatten_globals tests g).get ⟨i, hi⟩
      = { tests.get ⟨i, hi'⟩ with
          options := dictUnion (tests.get ⟨i, hi'⟩).options g } := by
    unfold flatten_globals
    rw [List.get_eq_getElem, List.getElem_map, List.get_eq_getElem]
  rw [hget]
  exact dictGet_union_right _ _ _ _ hg hgk

/-- C1 witness: the amended claim applied to the concrete configuration of
the counterexample. -/
theorem C1_global_options_win_witness :
    dictGet ((flatten_globals
        [{ id := "a", experiment := "e", replicas := 1, completed := 0,
           profile := none, options := [("RETRIES", Value.vInt 1)],
           matrix := none, matrix_ids := [] }]
        [("RETRIES", Value.vInt 2)]).get ⟨0, by decide⟩).options "RETRIES"
      = some (Value.vInt 2) :=
  C1_global_options_win
    [{ id := "a", experiment := "e", replicas := 1, completed := 0,
       profile := none, options := [("RETRIES", Value.vInt 1)],
       matrix := none, matrix_ids := [] }]
    [("RETRIES", Value.vInt 2)] (by decide) 0 (by decide) (by decide)
    "RETRIES" (Value.vInt 2) (Value.vInt 1) rfl rfl

/-! ## Claim C2: stop during a backoff wait -/

/-- C2: when the process-wide stop flag is set and the condition broadcast
wakes a retry cursor blocked in its backoff wait (wake reason `notified`,
i.e. without the full delay having elapsed), the wait reports the stop and
the advance raises `ExitEarly` instead of yielding a new attempt handle. -/
theorem C2_stop_during_backoff_wait (st : ControlState) (s : RetryState)
    (hstop : st.stopping = true)
    (hnot_first : s.index + 1 ≠ 0) (hbudget : s.index + 1 < s.retry_count) :
    retryNext s (waitReturn st .notified) = .exitEarly := by
  unfold waitReturn retryNext
  rw [hstop, if_neg (by omega), if_pos hnot_first, if_pos rfl]

/-- C2 witness: a cursor on its second advance (index 0 of 5) with the stop
flag set and the broadcast delivered. -/
theorem C2_stop_during_backoff_wait_witness :
    retryNext { index := 0, retry_count := 5, failure_msg := none,
                cause_is_exception := false }
        (waitReturn { stopping := true } .notified)
      = .exitEarly :=
  C2_stop_during_backoff_wait { stopping := true }
    { index := 0, retry_count := 5, failure_msg := none,
      cause_is_exception := false } rfl (by decide) (by decide)

/-! ## Claim C4: exactly N attempt handles, then OperationFailed -/

/-- C4: for every retry budget `N ≥ 1`, a cursor whose attempted action
reports `failed()` on every attempt yields exactly `N` attempt handles
(indices 0 through N-1: advance `k+1` yields the handle with index `k`
exactly while `k < N`) and raises `OperationFailed` on the advance after
the N-th handle, never yielding an (N+1)-th handle. -/
theorem C4_retry_yields_exactly_N (msg : String) (N : Int) (hN : 1 ≤ N) (k : Nat) :
    ((k : Int) < N → failingTrajectory msg N k
        = .handle { index := (k : Int), retry_count := N, failure_msg := none,
                    cause_is_exception := false })
    ∧ (N ≤ (k : Int) → failingTrajectory msg N k = .opFailed) :=
  failingTrajectory_spec msg N hN k

/-- C4 witness: with `N = 1` (one shot) advance 1 yields the single handle
and advance 2 fails terminally. -/
theorem C4_retry_yields_exactly_N_witness :
    failingTrajectory "transient" 1 0
      = .handle { index := 0, retry_count := 1, failure_msg := none,
                  cause_is_exception := false }
    ∧ failingTrajectory "transient" 1 1 = .opFailed :=
  ⟨(C4_retry_yields_exactly_N "transient" 1 (by decide) 0).1 (by decide),
   (C4_retry_yields_exactly_N "transient" 1 (by decide) 1).2 (by decide)⟩

/-! ## Claim C3: the `terminating` status inside provision's poll -/

/-- Projection of a poll outcome onto "did the driver run safe_terminate
before recording the failure". -/
def pollDidTerminate : ProvisionPoll → Option Bool
  | .failedAttempt didTerminate _ => some didTerminate
  | _ => none

/-- C3, counterexample: the claim predicts a best-effort terminate when
`provision()` observes the `terminating` status; the code's `terminating`
branch records the attempt as failed without any terminate call (that call
only happens in the unrecognized-status branch). -/
theorem C3_counterexample :
    pollDidTerminate (provisionStatusCheck "terminating" "") = some false
    ∧ pollDidTerminate (provisionStatusCheck "terminating" "") ≠ some true := by
  constructor
  · rfl
  · decide

/-- C3 (amended): whenever `provision()` observes the `terminating` status
before `ready`, it records that attempt as failed WITHOUT performing a
terminate (the allocation is already terminating; the best-effort terminate
happens only for unrecognized statuses), and it raises `OperationFailed`
once the retry budget `N` is exhausted (every attempt failing with the
`terminating` message). -/
theorem C3_terminating_fails_without_terminate (err : String) (N : Int)
    (hN : 1 ≤ N) (k : Nat) (hk : N ≤ (k : Int)) :
    provisionStatusCheck "terminating" err
      = .failedAttempt false "experiment is marked as terminating"
    ∧ (∀ status : String,
        status ∉ (["terminating", "ready", "created", "provisioning",
                   "booting"] : List String) →
        provisionStatusCheck status err
          = .failedAttempt true (classifyProvisionError err))
    ∧ failingTrajectory "experiment is marked as terminating" N k = .opFailed := by
  refine ⟨rfl, ?_, (failingTrajectory_spec _ N hN k).2 hk⟩
  intro status hmem
  simp only [List.mem_cons, List.mem_singleton, not_or] at hmem
  obtain ⟨h1, h2, h3, h4, h5, _⟩ := hmem
  unfold provisionStatusCheck
  rw [if_neg h1, if_neg h2, if_neg (by tauto)]

/-- C3 witness: the default budget of `provision` (`retry_count=5`), with
the sixth advance exhausting it. -/
theorem C3_terminating_fails_without_terminate_witness :
    provisionStatusCheck "terminating" ""
      = .failedAttempt false "experiment is marked as terminating"
    ∧ failingTrajectory "experiment is marked as terminating" 5 5
      = .opFailed :=
  ⟨(C3_terminating_fails_without_terminate "" 5 (by decide) 5 (by decide)).1,
   (C3_terminating_fails_without_terminate "" 5 (by decide) 5 (by decide)).2.2⟩

/-! ## Claim C6: zero matched host fields -/

/-- C6: on a configuration with no matched host field, `assign_hosts`
raises a bare `ZeroDivisionError` from `num_hosts // num_fields` (caught
only by the blanket exception handler of the per-test loop in `run`, which
skips the unit) instead of the descriptive configuration-mismatch error the
specification requires. -/
theorem C6_zero_fields_divides_by_zero :
    hostFields "FRONTEND=1\nBACKEND=2" = []
    ∧ assign_hosts "FRONTEND=1\nBACKEND=2" ["h1", "h2"]
        = .error .zeroDivision := by
  constructor <;> rfl

/-! ## Claim C9: teardown swallows terminate failures -/

/-- C9: once the results transfer has succeeded and the stop flag is not
set, no exception raised by the guard-protected terminate call propagates
out of teardown — the only error teardown can raise past that point is the
`ExitEarly` of the final cooldown wait; when the cooldown completes,
teardown returns normally having attempted the terminate and having logged
(swallowed) its failure, whatever the terminate outcome was. -/
theorem C9_teardown_swallows_terminate_failures (env : TeardownEnv)
    (htr : env.transfer = .ok ()) (hst : env.stopping = false) :
    (∀ e : Exc, teardown env = .error e →
      e = .exitEarly ∧ env.waitStops = true)
    ∧ (env.waitStops = false →
        teardown env = .ok { terminateAttempted := true,
                             terminateErrorLogged := guardedTerminate env.terminate,
                             cooldownReached := true })
    ∧ (∀ ex : Exc, env.terminate = .error ex →
        (guardedTerminate env.terminate).isSome = true) := by
  refine ⟨?_, ?_, ?_⟩
  · intro e he
    unfold teardown at he
    rw [htr, hst] at he
    simp only [if_false] at he
    by_cases hw : env.waitStops = true
    · rw [if_pos hw] at he
      cases he
      exact ⟨rfl, hw⟩
    · rw [if_neg hw] at he
      cases he
  · intro hw
    unfold teardown
    rw [htr, hst]
    simp only [if_false, hw]
    rfl
  · intro ex hex
    rw [hex]
    cases ex <;> rfl

/-- C9 witness: terminate fails with `OperationFailed` (its retry budget
exhausted); teardown still reaches the cooldown and returns normally with
the failure logged. -/
theorem C9_teardown_swallows_terminate_failures_witness :
    teardown { transfer := .ok (), stopping := false,
               terminate := .error .operationFailed, waitStops := false }
      = .ok { terminateAttempted := true,
              terminateErrorLogged :=
                some "Could not terminate experiment on cloudlab:",
              cooldownReached := true } :=
  (C9_teardown_swallows_terminate_failures
      { transfer := .ok (), stopping := false,
        terminate := .error .operationFailed, waitStops := false }
      rfl rfl).2.1 rfl

/-! ## Claim C10: `completed` at or above `replicas` -/

/-- C10: a test specification whose declared `completed` count is at least
its `replicas` count contributes zero TestReplicas — the iteration range
`range(replicas - completed)` is empty — and the full flattening (which is
just the concatenation of the per-spec lists) raises no error for it. -/
theorem C10_completed_ge_replicas_empty (tests : List TestSet)
    (completed_tests : List (String × List Nat)) (t : TestSet)
    (ht : t ∈ tests) (h : t.replicas ≤ t.completed) :
    replicasFor (idLength tests) completed_tests t = []
    ∧ flatten_replicas tests completed_tests
        = tests.flatMap (fun ts =>
            replicasFor (idLength tests) completed_tests ts) := by
  refine ⟨?_, flatten_replicas_eq_flatMap tests completed_tests⟩
  unfold replicasFor
  rw [Nat.sub_eq_zero_of_le h]
  rfl

/-- C10 witness: a spec declaring `completed: 3` with `replicas: 2`. -/
theorem C10_completed_ge_replicas_empty_witness :
    replicasFor
        (idLength [{ id := "a", experiment := "e", replicas := 2,
                     completed := 3, profile := none, options := [],
                     matrix := none, matrix_ids := [] }]) []
        { id := "a", experiment := "e", replicas := 2, completed := 3,
          profile := none, options := [], matrix := none, matrix_ids := [] }
      = [] :=
  (C10_completed_ge_replicas_empty
      [{ id := "a", experiment := "e", replicas := 2, completed := 3,
         profile := none, options := [], matrix := none, matrix_ids := [] }]
      []
      { id := "a", experiment := "e", replicas := 2, completed := 3,
        profile := none, options := [], matrix := none, matrix_ids := [] }
      (by decide) (by decide)).1

/-! ## Claim C5: host assignment partition -/

theorem popExact_ok (n : Nat) (pool : List String) (h : n ≤ pool.length) :
    popExact n pool = .ok (pool.take n, pool.drop n) := by
  induction n generalizing pool with
  | zero => rfl
  | succ n ih =>
    cases pool with
    | nil => simp at h
    | cons x pool =>
      simp only [List.length_cons, Nat.succ_le_succ_iff] at h
      simp [popExact, ih pool h]

theorem dictInsert_no_key {α : Type} (d : List (String × α)) (k : String) (v : α)
    (h : dictHasKey d k = false) : dictInsert d k v = d ++ [(k, v)] := by
  induction d with
  | nil => rfl
  | cons p d ih =>
    simp only [dictHasKey, Bool.or_eq_false_iff, decide_eq_false_iff_not] at h
    simp [dictInsert, h.1, ih h.2]

theorem dictHasKey_append_single {α : Type} (d : List (String × α)) (k k' : String)
    (v : α) (hd : dictHasKey d k = false) (hk : k' ≠ k) :
    dictHasKey (d ++ [(k', v)]) k = false := by
  induction d with
  | nil => simpa [dictHasKey] using fun h => hk h
  | cons p d ih =>
    simp only [dictHasKey, Bool.or_eq_false_iff, decide_eq_false_iff_not] at hd
    simp only [List.cons_append, dictHasKey, Bool.or_eq_false_iff,
      decide_eq_false_iff_not]
    exact ⟨hd.1, ih hd.2⟩

/-- The per-field chunk sizes from position `i` on: `per` hosts each plus
one extra while the absolute index is below `extra`. -/
def sizesFrom (per extra : Nat) : Nat → Nat → List Nat
  | _, 0 => []
  | i, n + 1 => (per + if i < extra then 1 else 0) :: sizesFrom per extra (i + 1) n

theorem sizesFrom_sum (per extra : Nat) (n i : Nat) :
    (sizesFrom per extra i n).sum
      = n * per + (min extra (i + n) - min extra i) := by
  induction n generalizing i with
  | zero => simp [sizesFrom]
  | succ n ih =>
    simp only [sizesFrom, List.sum_cons, ih (i + 1), Nat.succ_mul]
    by_cases h : i < extra
    · simp only [h, if_true]
      omega
    · simp only [h, if_false]
      omega

theorem chunkSizes_eq_sizesFrom (H F : Nat) :
    chunkSizes H F = sizesFrom (H / F) (H % F) 0 F := by
  unfold chunkSizes
  suffices h : ∀ (per extra n i : Nat),
      (List.range n).map (fun j => per + if i + j < extra then 1 else 0)
        = sizesFrom per extra i n by
    simpa using h (H / F) (H % F) F 0
  intro per extra n
  induction n with
  | zero => intro i; rfl
  | succ n ih =>
    intro i
    rw [List.range_succ_eq_map]
    simp only [List.map_cons, Nat.add_zero, List.map_map, sizesFrom]
    refine congrArg₂ _ rfl ?_
    rw [← ih (i + 1)]
    refine List.map_congr_left ?_
    intro j _
    simp only [Function.comp_apply, Nat.succ_eq_add_one]
    have harith : i + (j + 1) = i + 1 + j := by omega
    rw [harith]

theorem splitChunks_flatten (sizes : List Nat) (hosts : List String)
    (h : sizes.sum = hosts.length) :
    (splitChunks sizes hosts).flatten = hosts := by
  induction sizes generalizing hosts with
  | nil =>
    simp only [List.sum_nil] at h
    cases hosts with
    | nil => rfl
    | cons x hs => simp at h
  | cons n ns ih =>
    simp only [List.sum_cons] at h
    simp only [splitChunks, List.flatten_cons]
    rw [ih (hosts.drop n) (by simp; omega), List.take_append_drop]

theorem splitChunks_lengths (sizes : List Nat) (hosts : List String)
    (h : sizes.sum ≤ hosts.length) :
    (splitChunks sizes hosts).map List.length = sizes := by
  induction sizes generalizing hosts with
  | nil => rfl
  | cons n ns ih =>
    simp only [List.sum_cons] at h
    simp only [splitChunks, List.map_cons]
    rw [List.length_take, ih (hosts.drop n) (by simp; omega)]
    congr 1
    omega

theorem assignLoop_spec (per extra : Nat) (fields : List String) (i : Nat)
    (pool : List String) (acc : List (String × List String))
    (hacc : ∀ f ∈ fields, dictHasKey acc f = false) (hnd : fields.Nodup)
    (hpool : (sizesFrom per extra i fields.length).sum ≤ pool.length) :
    assignLoop per extra i pool acc fields
      = .ok (acc ++ fields.zip
          (splitChunks (sizesFrom per extra i fields.length) pool)) := by
  induction fields generalizing i pool acc with
  | nil => simp [assignLoop]
  | cons f fs ih =>
    simp only [List.length_cons, sizesFrom, List.sum_cons] at hpool
    simp only [List.nodup_cons] at hnd
    have haccf : dictHasKey acc f = false := hacc f (List.mem_cons_self f fs)
    have hper : per ≤ pool.length := by
      by_cases h : i < extra <;> simp [h] at hpool <;> omega
    have hinsert : ∀ chunk, dictInsert acc f chunk = acc ++ [(f, chunk)] :=
      fun chunk => dictInsert_no_key acc f chunk haccf
    have hacc' : ∀ chunk, ∀ g ∈ fs, dictHasKey (acc ++ [(f, chunk)]) g = false := by
      intro chunk g hg
      exact dictHasKey_append_single acc g f chunk
        (hacc g (List.mem_cons_of_mem f hg))
        (fun he => hnd.1 (he ▸ hg))
    by_cases hx : i < extra
    · have hs0 : per + 1 ≤ pool.length := by simp [hx] at hpool; omega
      have h1 : 1 ≤ (pool.drop per).length := by simp; omega
      simp only [assignLoop, popExact_ok per pool hper, hx, if_true,
        popExact_ok 1 (pool.drop per) h1]
      rw [hinsert]
      have hchunk : pool.take per ++ (pool.drop per).take 1 = pool.take (per + 1) := by
        rw [List.take_add]
      have hdrop : (pool.drop per).drop 1 = pool.drop (per + 1) := by
        rw [List.drop_drop]
      rw [hchunk, hdrop,
        ih (i + 1) (pool.drop (per + 1)) (acc ++ [(f, pool.take (per + 1))])
          (hacc' _) hnd.2 (by simp [hx] at hpool ⊢; omega)]
      simp only [splitChunks, hx, if_true, List.zip_cons_cons, List.append_assoc,
        List.cons_append, List.nil_append]
    · have hs0 : per ≤ pool.length := by simp [hx] at hpool; omega
      simp only [assignLoop, popExact_ok per pool hper, hx, if_false]
      rw [hinsert,
        ih (i + 1) (pool.drop per) (acc ++ [(f, pool.take per)])
          (hacc' _) hnd.2 (by simp [hx] at hpool ⊢; omega)]
      simp only [splitChunks, hx, if_false, List.zip_cons_cons, List.append_assoc,
        List.cons_append, List.nil_append, Nat.add_zero]

/-- C5, counterexample: for the config text `A_HOST=x\nA_HOST=y` the number
of DISTINCT matched names is 1, so the claim predicts `A_HOST` receives
both hosts (`"h1 h2"`) and the chunks partition the host list.  The code
counts occurrences (2), assigns one host per occurrence, and the second
dict assignment overwrites the first, leaving `A_HOST = "h2"` and dropping
`h1` entirely. -/
theorem C5_counterexample :
    hostFields "A_HOST=x\nA_HOST=y" = ["A_HOST", "A_HOST"]
    ∧ assign_hosts "A_HOST=x\nA_HOST=y" ["h1", "h2"] = .ok [("A_HOST", "h2")]
    ∧ (Except.ok [("A_HOST", "h2")]
        : Except PyErr (List (String × String))) ≠ .ok [("A_HOST", "h1 h2")] := by
  refine ⟨rfl, rfl, by simp⟩

/-- C5 (amended): for every host list and every configuration text whose
matched host-field names are pairwise distinct and number `F ≥ 1`,
`assign_hosts` returns the fields zipped with the space-joined chunks of
the input host list, where field `i` receives `H / F` hosts plus one extra
for the first `H % F` fields (`chunkSizes`), chunks are cut from the front
in order, the chunks concatenate back to the entire input host list
(an order-preserving partition), and the chunk lengths realize the
announced distribution. -/
theorem C5_host_assignment_partition (config_sh : String) (hosts : List String)
    (hne : hostFields config_sh ≠ []) (hnd : (hostFields config_sh).Nodup) :
    assign_hosts config_sh hosts
      = .ok ((hostFields config_sh).zip
          ((splitChunks (chunkSizes hosts.length (hostFields config_sh).length)
              hosts).map (String.intercalate " ")))
    ∧ (splitChunks (chunkSizes hosts.length (hostFields config_sh).length)
        hosts).flatten = hosts
    ∧ (splitChunks (chunkSizes hosts.length (hostFields config_sh).length)
        hosts).map List.length
      = chunkSizes hosts.length (hostFields config_sh).length := by
  have hF0 : 0 < (hostFields config_sh).length := List.length_pos.mpr hne
  have hsum : (sizesFrom (hosts.length / (hostFields config_sh).length)
      (hosts.length % (hostFields config_sh).length) 0
      (hostFields config_sh).length).sum = hosts.length := by
    rw [sizesFrom_sum]
    have hmod : hosts.length % (hostFields config_sh).length
        < (hostFields config_sh).length := Nat.mod_lt _ hF0
    have := Nat.div_add_mod hosts.length (hostFields config_sh).length
    simp only [Nat.zero_add, Nat.min_self]
    omega
  have hchunk : chunkSizes hosts.length (hostFields config_sh).length
      = sizesFrom (hosts.length / (hostFields config_sh).length)
          (hosts.length % (hostFields config_sh).length) 0
          (hostFields config_sh).length :=
    chunkSizes_eq_sizesFrom _ _
  refine ⟨?_, ?_, ?_⟩
  · simp only [assign_hosts]
    rw [if_neg (Nat.pos_iff_ne_zero.mp hF0),
      assignLoop_spec (hosts.length / (hostFields config_sh).length)
        (hosts.length % (hostFields config_sh).length)
        (hostFields config_sh) 0 hosts [] (fun f _ => rfl) hnd (le_of_eq hsum)]
    refine congrArg Except.ok ?_
    rw [List.nil_append, hchunk, List.zip_map_right]
    refine List.map_congr_left ?_
    intro p _
    cases p
    rfl
  · rw [hchunk]
    exact splitChunks_flatten _ _ hsum
  · rw [hchunk]
    exact splitChunks_lengths _ _ (le_of_eq hsum)

/-- C5 witness: the claim's own example, 7 hosts over 3 fields, realizing
the `[3, 2, 2]` distribution in declaration order. -/
theorem C5_host_assignment_partition_witness :
    assign_hosts "A_HOSTS=\nB_HOSTS=\nC_HOSTS="
        ["h1", "h2", "h3", "h4", "h5", "h6", "h7"]
      = .ok ((hostFields "A_HOSTS=\nB_HOSTS=\nC_HOSTS=").zip
          ((splitChunks
              (chunkSizes
                (["h1", "h2", "h3", "h4", "h5", "h6", "h7"] : List String).length
                (hostFields "A_HOSTS=\nB_HOSTS=\nC_HOSTS=").length)
              ["h1", "h2", "h3", "h4", "h5", "h6", "h7"]).map
            (String.intercalate " ")))
    ∧ (splitChunks
        (chunkSizes
          (["h1", "h2", "h3", "h4", "h5", "h6", "h7"] : List String).length
          (hostFields "A_HOSTS=\nB_HOSTS=\nC_HOSTS=").length)
        ["h1", "h2", "h3", "h4", "h5", "h6", "h7"]).flatten
      = ["h1", "h2", "h3", "h4", "h5", "h6", "h7"]
    ∧ (splitChunks
        (chunkSizes
          (["h1", "h2", "h3", "h4", "h5", "h6", "h7"] : List String).length
          (hostFields "A_HOSTS=\nB_HOSTS=\nC_HOSTS=").length)
        ["h1", "h2", "h3", "h4", "h5", "h6", "h7"]).map List.length
      = chunkSizes
          (["h1", "h2", "h3", "h4", "h5", "h6", "h7"] : List String).length
          (hostFields "A_HOSTS=\nB_HOSTS=\nC_HOSTS=").length :=
  C5_host_assignment_partition "A_HOSTS=\nB_HOSTS=\nC_HOSTS="
    ["h1", "h2", "h3", "h4", "h5", "h6", "h7"] (by decide) (by decide)

/-! ## Claims C7/C8: replica-identifier structure -/

/-- Splitting a list at an occurrence of `d` that appears in neither prefix
is unambiguous. -/
theorem append_cons_eq_of_not_mem {α : Type} (d : α) :
    ∀ (as1 bs1 as2 bs2 : List α), d ∉ as1 → d ∉ as2 →
    as1 ++ d :: bs1 = as2 ++ d :: bs2 → as1 = as2 ∧ bs1 = bs2 := by
  intro as1
  induction as1 with
  | nil =>
    intro bs1 as2 bs2 _ h2 h
    cases as2 with
    | nil => simpa using h
    | cons a as2 =>
      simp only [List.nil_append, List.cons_append, List.cons.injEq] at h
      exact absurd (h.1 ▸ List.mem_cons_self a as2) h2
  | cons a as1 ih =>
    intro bs1 as2 bs2 h1 h2 h
    cases as2 with
    | nil =>
      simp only [List.cons_append, List.nil_append, List.cons.injEq] at h
      exact absurd (h.1 ▸ List.mem_cons_self a as1) h1
    | cons a2 as2 =>
      simp only [List.cons_append, List.cons.injEq] at h
      have h1' : d ∉ as1 := fun hm => h1 (List.mem_cons_of_mem a hm)
      have h2' : d ∉ as2 := fun hm => h2 (List.mem_cons_of_mem a2 hm)
      obtain ⟨he, ht⟩ := ih bs1 as2 bs2 h1' h2' h.2
      exact ⟨by rw [h.1, he], ht⟩

theorem mkRunId_data (b : String) (w j : Nat) :
    (mkRunId b w j).data = b.data ++ '-' :: padChars w j := by
  unfold mkRunId
  rw [String.data_append, String.data_append]
  simp [List.append_assoc]

/-- The padded run id determines both the base id and the replica index:
the padding is dash-free, so the last dash of the id is the separator. -/
theorem mkRunId_inj (b1 b2 : String) (w j1 j2 : Nat)
    (h : mkRunId b1 w j1 = mkRunId b2 w j2) : b1 = b2 ∧ j1 = j2 := by
  have hdata : b1.data ++ '-' :: padChars w j1 = b2.data ++ '-' :: padChars w j2 := by
    rw [← mkRunId_data, ← mkRunId_data, h]
  have hrev := congrArg List.reverse hdata
  simp only [List.reverse_append, List.reverse_cons, List.append_assoc,
    List.singleton_append] at hrev
  have h1 : '-' ∉ (padChars w j1).reverse := by
    rw [List.mem_reverse]; exact dash_not_mem_padChars w j1
  have h2 : '-' ∉ (padChars w j2).reverse := by
    rw [List.mem_reverse]; exact dash_not_mem_padChars w j2
  obtain ⟨hp, hb⟩ := append_cons_eq_of_not_mem '-' _ _ _ _ h1 h2 hrev
  constructor
  · exact String.ext (List.reverse_injective hb)
  · exact padChars_injective w j1 j2 (List.reverse_injective hp)

/-- Replica `j` of base `b` is emitted by `replicasFor` exactly when `j`
lies in `[completed, replicas)` and the CompletionIndex lacks it. -/
theorem mem_replicasFor_iff (w : Nat) (idx : List (String × List Nat))
    (t : TestSet) (j : Nat) :
    mkRunId t.id w j ∈ (replicasFor w idx t).map TestReplica.test_id
      ↔ (t.completed ≤ j ∧ j < t.replicas ∧ completedHas idx t.id j = false) := by
  unfold replicasFor
  rw [List.map_filterMap]
  constructor
  · intro hmem
    obtain ⟨i, hi, heq⟩ := List.mem_filterMap.mp hmem
    rw [List.mem_range] at hi
    by_cases hc : completedHas idx t.id (i + t.completed) = true
    · simp only [hc, if_true, Option.map_none] at heq
      cases heq
    · simp only [hc, if_false, Option.map_some] at heq
      have hj : i + t.completed = j :=
        (mkRunId_inj _ _ _ _ _ (Option.some.inj heq)).2
      refine ⟨by omega, by omega, ?_⟩
      rw [← hj]
      exact Bool.eq_false_iff.mpr hc
  · rintro ⟨hc, hr, hhas⟩
    refine List.mem_filterMap.mpr ⟨j - t.completed, List.mem_range.mpr (by omega), ?_⟩
    have hj : j - t.completed + t.completed = j := by omega
    show Option.map TestReplica.test_id
        (if completedHas idx t.id (j - t.completed + t.completed) = true then none
         else some { test_id := mkRunId t.id w (j - t.completed + t.completed),
                     options := t.options, experiment := t.experiment,
                     profile := t.profile, matrix_ids := t.matrix_ids })
      = some (mkRunId t.id w j)
    rw [hj, hhas]
    simp

/-! CompletionIndex lemmas -/

theorem completedHas_addCompleted_self (d : List (String × List Nat))
    (test_id : String) (j : Nat) :
    completedHas (addCompleted d test_id j) test_id j = true := by
  unfold completedHas addCompleted
  cases h : dictGet d test_id with
  | some s =>
    rw [dictGet_insert_self]
    by_cases hj : j ∈ s
    · simp [hj]
    · simp [hj]
  | none =>
    rw [dictGet_insert_self]
    simp

theorem completedHas_addCompleted_mono (d : List (String × List Nat))
    (test_id id' : String) (j j' : Nat)
    (h : completedHas d test_id j = true) :
    completedHas (addCompleted d id' j') test_id j = true := by
  unfold completedHas at h
  unfold addCompleted
  by_cases hid : id' = test_id
  · subst hid
    cases hd : dictGet d id' with
    | some s =>
      rw [hd] at h
      simp only [decide_eq_true_eq] at h
      unfold completedHas
      rw [dictGet_insert_self]
      by_cases hj : j' ∈ s
      · simp [hj, h]
      · simp only [hj, if_false]
        simp [List.mem_append, h]
    | none => rw [hd] at h; cases h
  · cases hd : dictGet d id' with
    | some s =>
      unfold completedHas
      rw [dictGet_insert_ne _ _ _ _ (Ne.symm hid)]
      exact h
    | none =>
      unfold completedHas
      rw [dictGet_insert_ne _ _ _ _ (Ne.symm hid)]
      exact h

theorem completedHas_fold (test_id : String) (j : Nat) :
    ∀ (fl : List String) (acc : List (String × List Nat)),
    ((∃ g ∈ fl, parseResultName (basename g) = some (test_id, j))
      ∨ completedHas acc test_id j = true) →
    completedHas (fl.foldl completedStep acc) test_id j = true := by
  intro fl
  induction fl with
  | nil =>
    intro acc h
    rcases h with ⟨g, hg, _⟩ | h
    · cases hg
    · exact h
  | cons g fl ih =>
    intro acc h
    simp only [List.foldl_cons]
    rcases h with ⟨g', hg', hp⟩ | h
    · rcases List.mem_cons.mp hg' with he | hm
      · subst he
        have hstep : completedStep acc g' = addCompleted acc test_id j := by
          unfold completedStep
          rw [hp]
        rw [hstep]
        exact ih _ (Or.inr (completedHas_addCompleted_self acc test_id j))
      · refine ih _ (Or.inl ⟨g', hm, hp⟩)
    · refine ih _ (Or.inr ?_)
      unfold completedStep
      cases hp : parseResultName (basename g) with
      | some p => exact completedHas_addCompleted_mono acc test_id p.1 j p.2 h
      | none => exact h

/-! The result-file name written for replica `j` of base `b` parses back to
`(b, j)`. -/

theorem decChars_isDigit (n : Nat) : ∀ c ∈ decChars n, isDigitChar c = true := by
  intro c hc
  obtain ⟨d, hd, hch⟩ := List.mem_map.mp hc
  have := decDigits_lt n d hd
  subst hch
  interval_cases d <;> decide

theorem decChars_ne_slash (n : Nat) : ∀ c ∈ decChars n, c ≠ '/' := by
  intro c hc
  obtain ⟨d, hd, hch⟩ := List.mem_map.mp hc
  have := decDigits_lt n d hd
  subst hch
  interval_cases d <;> decide

theorem decChars_ne_nil (n : Nat) : decChars n ≠ [] := by
  intro hc
  have hlen := congrArg List.length hc
  unfold decChars at hlen
  rw [decDigits_eq] at hlen
  by_cases h : n = 0
  · simp [h] at hlen
  · simp only [h, if_false, List.length_map, List.length_reverse,
      List.length_nil] at hlen
    exact Nat.digits_ne_nil_iff_ne_zero.mpr h (List.length_eq_zero.mp hlen)

theorem takeWhile_all_append {α : Type} (p : α → Bool) (l1 : List α) (c : α)
    (l2 : List α) (h1 : ∀ x ∈ l1, p x = true) (hc : p c = false) :
    (l1 ++ c :: l2).takeWhile p = l1 ∧ (l1 ++ c :: l2).dropWhile p = c :: l2 := by
  induction l1 with
  | nil => simp [List.takeWhile, List.dropWhile, hc]
  | cons a l1 ih =>
    have ha : p a = true := h1 a (List.mem_cons_self a l1)
    have ih' := ih (fun x hx => h1 x (List.mem_cons_of_mem a hx))
    simp [List.takeWhile, List.dropWhile, ha, ih'.1, ih'.2]

theorem resultFileName_data (b : String) (j : Nat) :
    (resultFileName b j).data
      = (b.data ++ '-' :: decChars j) ++ ".tar.gz".data := by
  unfold resultFileName
  rw [String.data_append, String.data_append, String.data_append]
  simp [decStr, List.append_assoc]

theorem basename_resultFileName (b : String) (j : Nat) (hslash : '/' ∉ b.data) :
    basename (resultFileName b j) = resultFileName b j := by
  unfold basename
  have htargz : ∀ x ∈ ".tar.gz".data, x ≠ '/' := by decide
  have hall : ∀ c ∈ (resultFileName b j).data.reverse,
      (fun c => decide (c ≠ '/')) c = true := by
    intro c hc
    rw [List.mem_reverse, resultFileName_data, List.append_assoc,
      List.cons_append] at hc
    simp only [ne_eq, decide_eq_true_eq]
    rcases List.mem_append.mp hc with hb1 | hrest
    · exact fun he => hslash (he ▸ hb1)
    · rcases List.mem_cons.mp hrest with hd | hrest2
      · rw [hd]; decide
      · rcases List.mem_append.mp hrest2 with hdec | htar
        · exact decChars_ne_slash j c hdec
        · exact htargz c htar
  rw [List.takeWhile_eq_self_iff.mpr hall, List.reverse_reverse]

theorem parseResultName_resultFileName (b : String) (j : Nat)
    (hb : b ≠ "") : parseResultName (resultFileName b j) = some (b, j) := by
  have hdata := resultFileName_data b j
  have hsuf : ".tar.gz".data.isSuffixOf (resultFileName b j).data = true := by
    rw [List.isSuffixOf_iff_suffix, hdata]
    exact List.suffix_append _ _
  unfold parseResultName
  rw [if_pos hsuf]
  have hstem : (resultFileName b j).data.take ((resultFileName b j).data.length - 7)
      = b.data ++ '-' :: decChars j := by
    rw [hdata]
    have hlen : ((b.data ++ '-' :: decChars j) ++ ".tar.gz".data).length - 7
        = (b.data ++ '-' :: decChars j).length := by
      rw [List.length_append]
      norm_num
    rw [hlen, List.take_left]
  rw [hstem]
  unfold parseStem
  have hrev : (b.data ++ '-' :: decChars j).reverse
      = (decChars j).reverse ++ '-' :: b.data.reverse := by
    simp [List.reverse_append, List.reverse_cons, List.append_assoc]
  rw [hrev]
  have hall : ∀ c ∈ (decChars j).reverse, isDigitChar c = true := by
    intro c hc
    exact decChars_isDigit j c (List.mem_reverse.mp hc)
  have hsplit := takeWhile_all_append isDigitChar ((decChars j).reverse) '-'
    b.data.reverse hall (by decide)
  rw [hsplit.1, hsplit.2]
  have hdigs : (decChars j).reverse ≠ [] := by
    simpa using decChars_ne_nil j
  have hbase : b.data.reverse ≠ [] := by
    intro h
    refine hb (String.ext ?_)
    simpa using congrArg List.reverse h
  show (if ('-' = '-' ∧ (decChars j).reverse ≠ [] ∧ b.data.reverse ≠ []) then
      some (String.mk b.data.reverse.reverse,
            parseNatChars ((decChars j).reverse).reverse)
    else none) = some (b, j)
  rw [if_pos ⟨rfl, hdigs, hbase⟩, List.reverse_reverse, List.reverse_reverse,
    parseNatChars_decChars]

/-! Characterization of the shared pad width `idLength`. -/

theorem foldl_max_init_le (l : List Nat) : ∀ acc : Nat, acc ≤ l.foldl max acc := by
  induction l with
  | nil => intro acc; exact le_refl acc
  | cons x l ih =>
    intro acc
    exact le_trans (le_max_left acc x) (ih (max acc x))

theorem foldl_max_of_mem (l : List Nat) (x : Nat) (hx : x ∈ l) :
    ∀ acc : Nat, x ≤ l.foldl max acc := by
  induction l with
  | nil => cases hx
  | cons y l ih =>
    intro acc
    rcases List.mem_cons.mp hx with he | hm
    · subst he
      exact le_trans (le_max_right acc x) (foldl_max_init_le l (max acc x))
    · exact ih hm (max acc y)

theorem foldl_max_cases (l : List Nat) :
    ∀ acc : Nat, l.foldl max acc = acc ∨ l.foldl max acc ∈ l := by
  induction l with
  | nil => intro acc; exact Or.inl rfl
  | cons x l ih =>
    intro acc
    rcases ih (max acc x) with h | h
    · rcases max_choice acc x with hm | hm
      · exact Or.inl (by rw [List.foldl_cons, h, hm])
      · refine Or.inr (List.mem_cons.mpr (Or.inl ?_))
        rw [List.foldl_cons, h, hm]
    · exact Or.inr (List.mem_cons.mpr (Or.inr h))

theorem decLen_le_idLength (tests : List TestSet) (ts : TestSet) (hts : ts ∈ tests) :
    decLen ts.replicas ≤ idLength tests := by
  unfold idLength listMax
  refine le_trans ?_ (le_max_left _ 2)
  exact foldl_max_of_mem (tests.map (fun test_set => decLen test_set.replicas))
    (decLen ts.replicas) (List.mem_map.mpr ⟨ts, hts, rfl⟩) 0

theorem idLength_cases (tests : List TestSet) :
    idLength tests = 2 ∨ ∃ ts ∈ tests, decLen ts.replicas = idLength tests := by
  unfold idLength listMax
  rcases foldl_max_cases (tests.map (fun test_set => decLen test_set.replicas)) 0
    with h | h
  · left
    rw [h]
    rfl
  · obtain ⟨ts, hts, hf⟩ := List.mem_map.mp h
    by_cases hle : (tests.map (fun test_set => decLen test_set.replicas)).foldl max 0 ≤ 2
    · exact Or.inl (Nat.max_eq_right hle)
    · refine Or.inr ⟨ts, hts, ?_⟩
      rw [Nat.max_eq_left (by omega), hf]

/-- C7: replica generation iterates `j` over `[completed, replicas)`, skips
exactly the indices the CompletionIndex holds for the base id — in
particular any `j` whose result file `{base}-{j}.tar.gz` is among the
scanned files, regardless of the `completed` field — and emits ids padded
to the shared width `W = max(2, max digit-length of any spec's replicas)`;
the full flattening is the concatenation of these per-spec lists. -/
theorem C7_replica_generation (tests : List TestSet) (files : List String)
    (t : TestSet) (ht : t ∈ tests) (hid : t.id ≠ "") (hslash : '/' ∉ t.id.data) :
    flatten_replicas tests (get_completed_tests files)
      = tests.flatMap (fun ts =>
          replicasFor (idLength tests) (get_completed_tests files) ts)
    ∧ (∀ j : Nat,
        mkRunId t.id (idLength tests) j
            ∈ (replicasFor (idLength tests) (get_completed_tests files) t).map
                TestReplica.test_id
          ↔ (t.completed ≤ j ∧ j < t.replicas
              ∧ completedHas (get_completed_tests files) t.id j = false))
    ∧ (∀ j : Nat, resultFileName t.id j ∈ files →
        mkRunId t.id (idLength tests) j
          ∉ (replicasFor (idLength tests) (get_completed_tests files) t).map
              TestReplica.test_id)
    ∧ (∀ ts ∈ tests, decLen ts.replicas ≤ idLength tests)
    ∧ 2 ≤ idLength tests
    ∧ (idLength tests = 2 ∨ ∃ ts ∈ tests, decLen ts.replicas = idLength tests) := by
  refine ⟨flatten_replicas_eq_flatMap tests _,
    fun j => mem_replicasFor_iff _ _ t j, ?_,
    fun ts hts => decLen_le_idLength tests ts hts,
    le_max_right _ 2, idLength_cases tests⟩
  intro j hf
  rw [mem_replicasFor_iff]
  rintro ⟨-, -, hhas⟩
  have hsufx : ".tar.gz".data.isSuffixOf (resultFileName t.id j).data = true := by
    rw [List.isSuffixOf_iff_suffix, resultFileName_data]
    exact List.suffix_append _ _
  have hcomp : completedHas (get_completed_tests files) t.id j = true := by
    unfold get_completed_tests
    apply completedHas_fold
    left
    refine ⟨resultFileName t.id j, List.mem_filter.mpr ⟨hf, hsufx⟩, ?_⟩
    rw [basename_resultFileName t.id j hslash,
      parseResultName_resultFileName t.id j hid]
  rw [hhas] at hcomp
  cases hcomp

/-- C7 witness: one spec `a` with `replicas: 3, completed: 1` and the
result file of replica 2 present — replica 1 is emitted (as `a-01`),
replica 2 is not. -/
theorem C7_replica_generation_witness :
    (mkRunId "a"
        (idLength [{ id := "a", experiment := "e", replicas := 3,
                     completed := 1, profile := none, options := [],
                     matrix := none, matrix_ids := [] }]) 1
      ∈ (replicasFor
          (idLength [{ id := "a", experiment := "e", replicas := 3,
                       completed := 1, profile := none, options := [],
                       matrix := none, matrix_ids := [] }])
          (get_completed_tests ["a-2.tar.gz"])
          { id := "a", experiment := "e", replicas := 3, completed := 1,
            profile := none, options := [], matrix := none,
            matrix_ids := [] }).map TestReplica.test_id)
    ∧ (mkRunId "a"
        (idLength [{ id := "a", experiment := "e", replicas := 3,
                     completed := 1, profile := none, options := [],
                     matrix := none, matrix_ids := [] }]) 2
      ∉ (replicasFor
          (idLength [{ id := "a", experiment := "e", replicas := 3,
                       completed := 1, profile := none, options := [],
                       matrix := none, matrix_ids := [] }])
          (get_completed_tests ["a-2.tar.gz"])
          { id := "a", experiment := "e", replicas := 3, completed := 1,
            profile := none, options := [], matrix := none,
            matrix_ids := [] }).map TestReplica.test_id) :=
  ⟨((C7_replica_generation
      [{ id := "a", experiment := "e", replicas := 3, completed := 1,
         profile := none, options := [], matrix := none, matrix_ids := [] }]
      ["a-2.tar.gz"]
      { id := "a", experiment := "e", replicas := 3, completed := 1,
        profile := none, options := [], matrix := none, matrix_ids := [] }
      (List.mem_singleton.mpr rfl) (by decide) (by decide)).2.1 1).mpr
      ⟨by decide, by decide, by decide⟩,
   (C7_replica_generation
      [{ id := "a", experiment := "e", replicas := 3, completed := 1,
         profile := none, options := [], matrix := none, matrix_ids := [] }]
      ["a-2.tar.gz"]
      { id := "a", experiment := "e", replicas := 3, completed := 1,
        profile := none, options := [], matrix := none, matrix_ids := [] }
      (List.mem_singleton.mpr rfl) (by decide) (by decide)).2.2.1 2
      (List.mem_singleton.mpr rfl)⟩

/-! ## Claim C8: global uniqueness of replica identifiers -/

/-- Every id emitted for spec `t` has the shape `{t.id}-{jpad}`. -/
theorem mem_replicasFor_ids (w : Nat) (idx : List (String × List Nat))
    (t : TestSet) (x : String)
    (hx : x ∈ (replicasFor w idx t).map TestReplica.test_id) :
    ∃ j : Nat, x = mkRunId t.id w j := by
  unfold replicasFor at hx
  rw [List.map_filterMap] at hx
  obtain ⟨i, _, heq⟩ := List.mem_filterMap.mp hx
  by_cases hc : completedHas idx t.id (i + t.completed) = true
  · simp only [hc, if_true, Option.map_none] at heq
    cases heq
  · simp only [hc, if_false, Option.map_some] at heq
    exact ⟨i + t.completed, (Option.some.inj heq).symm⟩

/-- The ids emitted for one spec are pairwise distinct (distinct `j` give
distinct paddings). -/
theorem replicasFor_ids_nodup (w : Nat) (idx : List (String × List Nat))
    (t : TestSet) :
    ((replicasFor w idx t).map TestReplica.test_id).Nodup := by
  unfold replicasFor
  rw [List.map_filterMap]
  refine List.Nodup.filterMap ?_ (List.nodup_range _)
  intro i1 i2 b hb1 hb2
  rw [Option.mem_def] at hb1 hb2
  by_cases hc1 : completedHas idx t.id (i1 + t.completed) = true
  · rw [if_pos hc1] at hb1
    exact Option.noConfusion hb1
  · by_cases hc2 : completedHas idx t.id (i2 + t.completed) = true
    · rw [if_pos hc2] at hb2
      exact Option.noConfusion hb2
    · rw [if_neg hc1] at hb1
      rw [if_neg hc2] at hb2
      have hb1' : mkRunId t.id w (i1 + t.completed) = b := Option.some.inj hb1
      have hb2' : mkRunId t.id w (i2 + t.completed) = b := Option.some.inj hb2
      have h12 : mkRunId t.id w (i1 + t.completed)
          = mkRunId t.id w (i2 + t.completed) := by
        rw [hb1', hb2']
      have := (mkRunId_inj _ _ _ _ _ h12).2
      omega

/-- C8, counterexample: two test sets may carry the same identifier, in
which case the full expansion pipeline emits the same replica identifier
twice — the claim's universal uniqueness fails. -/
theorem C8_counterexample :
    (flatten_replicas
        (flatten_matrices (flatten_globals
          [{ id := "a", experiment := "e", replicas := 1, completed := 0,
             profile := none, options := [], matrix := none, matrix_ids := [] },
           { id := "a", experiment := "e", replicas := 1, completed := 0,
             profile := none, options := [], matrix := none, matrix_ids := [] }]
          [])) []).map TestReplica.test_id = ["a-00", "a-00"]
    ∧ ¬ ((flatten_replicas
        (flatten_matrices (flatten_globals
          [{ id := "a", experiment := "e", replicas := 1, completed := 0,
             profile := none, options := [], matrix := none, matrix_ids := [] },
           { id := "a", experiment := "e", replicas := 1, completed := 0,
             profile := none, options := [], matrix := none, matrix_ids := [] }]
          [])) []).map TestReplica.test_id).Nodup := by
  constructor
  · rfl
  · decide

/-- C8 (amended): whenever the specification identifiers produced by the
global merge and matrix expansion are pairwise distinct — which holds in
particular when the configured test-set ids are distinct and no matrix
expansion collides — the TestReplica identifiers of the full expansion run
are pairwise distinct: within one spec the paddings differ, and across
specs the id determines the base since the padding is dash-free. -/
theorem C8_replica_ids_unique (tests : List TestSet) (global_options : Options)
    (completed_tests : List (String × List Nat))
    (hnd : ((flatten_matrices (flatten_globals tests global_options)).map
        TestSet.id).Nodup) :
    ((flatten_replicas (flatten_matrices (flatten_globals tests global_options))
        completed_tests).map TestReplica.test_id).Nodup := by
  set ts := flatten_matrices (flatten_globals tests global_options) with hts
  rw [flatten_replicas_eq_flatMap, List.map_flatMap]
  rw [List.nodup_flatMap]
  constructor
  · intro t _
    exact replicasFor_ids_nodup _ _ t
  · have hpair : ts.Pairwise (fun a b => a.id ≠ b.id) :=
      List.pairwise_map.mp hnd
    refine hpair.imp ?_
    intro a b hab
    intro x hxa hxb
    obtain ⟨j1, he1⟩ := mem_replicasFor_ids _ _ a x hxa
    obtain ⟨j2, he2⟩ := mem_replicasFor_ids _ _ b x hxb
    have hx12 : mkRunId a.id (idLength ts) j1 = mkRunId b.id (idLength ts) j2 := by
      rw [← he1, ← he2]
    exact hab (mkRunId_inj _ _ _ _ _ hx12).1

/-- C8 witness: two distinct spec ids expand to four distinct replica
identifiers. -/
theorem C8_replica_ids_unique_witness :
    ((flatten_replicas
        (flatten_matrices (flatten_globals
          [{ id := "a", experiment := "e", replicas := 2, completed := 0,
             profile := none, options := [], matrix := none, matrix_ids := [] },
           { id := "b", experiment := "e", replicas := 2, completed := 0,
             profile := none, options := [], matrix := none, matrix_ids := [] }]
          [])) []).map TestReplica.test_id).Nodup :=
  C8_replica_ids_unique
    [{ id := "a", experiment := "e", replicas := 2, completed := 0,
       profile := none, options := [], matrix := none, matrix_ids := [] },
     { id := "b", experiment := "e", replicas := 2, completed := 0,
       profile := none, options := [], matrix := none, matrix_ids := [] }]
    [] [] (by decide)

end Automation
